import Mathlib

/-!
Verification of the `filealloc` repository: the bitmap allocation engine
(package `bitmap`) and the chunked page allocator (package `filealloc`).

Bytes are modelled as natural numbers below 256; Go's `int64` values are
modelled as `Int` with an explicit two's-complement wrap (`i64`) applied at
every operation that Go performs on `int64`.  Go functions that can panic
(division by zero, negative slice index, negative length arguments) are
modelled as `Option`-valued functions where the panic is reachable, with
`none` standing for the panic.
-/

namespace bitmap

/-- Go `byte(x << s)`: shift left and truncate to 8 bits. -/
def byteShl (x s : Nat) : Nat := (x <<< s) % 256

/-- The inner scan loop shared by `findFreeSpot8` and `FindFreeSpot`:
`for ; i>0; i-- { if (c & b)==0 { break }; b>>=1 }`.
Arguments: the byte `c`, the running mask `b`, the running counter `i`.
Returns the value of `i` after the loop. -/
def suffixScan (c : Nat) : Nat → Nat → Nat
  | _, 0 => 0
  | b, i + 1 => if c &&& b == 0 then i + 1 else suffixScan c (b >>> 1) i

/-- The body of `findFreeSpot8`'s `for j,c := range bm` loop, with the mask
`B`, the requested length `lng` and the running byte index `j`. -/
def ffs8Aux (lng B : Nat) : Nat → List Nat → Nat × Bool
  | _, [] => (0, false)
  | j, c :: rest =>
    let i := suffixScan c B 8
    if lng ≤ i then ((j <<< 3) ||| (8 - i), true)
    else if 0 < i ∧ rest ≠ [] then
      if rest.headD 0 &&& byteShl B (8 - i) == 0 then ((j <<< 3) ||| (8 - i), true)
      else ffs8Aux lng B (j + 1) rest
    else ffs8Aux lng B (j + 1) rest

/-- Go `findFreeSpot8(bm []byte, lng uint) (pos int64, ok bool)`.
Only called with `lng ≤ 8`. -/
def findFreeSpot8 (bm : List Nat) (lng : Nat) : Nat × Bool :=
  ffs8Aux lng (byteShl 255 (8 - lng)) 0 bm

/-- The `for j := n; j>0; j--` zero-byte check loop of `matchAligned`:
arguments are the running index `bipos` and the remaining count `j`. -/
def matchZeros (bm : List Nat) : Nat → Nat → Bool
  | _, 0 => true
  | bipos, j + 1 => if bm.getD bipos 0 != 0 then false else matchZeros bm (bipos + 1) j

/-- Go `matchAligned(bm []byte, bipos int64, lng int64) bool`. -/
def matchAligned (bm : List Nat) (bipos lng : Nat) : Bool :=
  let n := lng >>> 3
  let l := bm.length
  if bipos + n > l then false
  else if !(matchZeros bm bipos n) then false
  else
    let m := lng &&& 7
    if m == 0 then true
    else
      let b := byteShl 255 (8 - m)
      if bipos + n ≥ l then false
      else if bm.getD (bipos + n) 0 &&& b == 0 then true
      else false

/-- The `for j,c := range bm` loop of `FindFreeSpot`'s long-run regime
(`lng > 8`), with running byte index `j`. -/
def ffsLongAux (bm : List Nat) (lng : Nat) : Nat → List Nat → Nat × Bool
  | _, [] => (0, false)
  | j, c :: rest =>
    let i := suffixScan c 255 8
    if i == 0 then ffsLongAux bm lng (j + 1) rest
    else if matchAligned bm (j + 1) (lng - i) then ((j <<< 3) ||| (8 - i), true)
    else ffsLongAux bm lng (j + 1) rest

/-- Go `FindFreeSpot(bm []byte, lng int64) (int64, bool)` for `lng ≥ 0`
(a negative `lng` panics in Go and never reaches this core). -/
def FindFreeSpot (bm : List Nat) (lng : Nat) : Nat × Bool :=
  if lng ≤ 8 then findFreeSpot8 bm lng else ffsLongAux bm lng 0 bm

/-- Go read-modify-write of one byte: `bm[i] = f(bm[i])`. -/
def setByte (bm : List Nat) (i : Nat) (f : Nat → Nat) : List Nat :=
  bm.set i (f (bm.getD i 0))

/-- The `for lng>=8` loop of `WriteInUse` together with its trailing
partial-byte write. -/
def writeInUseLoop : List Nat → Nat → Nat → List Nat
  | bm, pos, lng + 8 => writeInUseLoop (bm.set (pos >>> 3) 255) (pos + 8) lng
  | bm, pos, lng =>
    if 0 < lng then setByte bm (pos >>> 3) (fun c => c ||| byteShl 255 (8 - lng)) else bm

/-- Go `WriteInUse(bm []byte, pos, lng int64)` for `pos, lng ≥ 0`
(negative arguments panic in Go and never reach this core). -/
def WriteInUse (bm : List Nat) (pos lng : Nat) : List Nat :=
  let n := pos &&& 7
  if (lng + n) >>> 3 == 0 then
    setByte bm (pos >>> 3) (fun c => c ||| (byteShl 255 (8 - lng) >>> n))
  else if n != 0 then
    writeInUseLoop (setByte bm (pos >>> 3) (fun c => c ||| (255 >>> n)))
      (pos + (8 - n)) (lng - (8 - n))
  else writeInUseLoop bm pos lng

/-- The `for lng>=8` loop of `WriteFree` together with its trailing
partial-byte write. -/
def writeFreeLoop : List Nat → Nat → Nat → List Nat
  | bm, pos, lng + 8 => writeFreeLoop (bm.set (pos >>> 3) 0) (pos + 8) lng
  | bm, pos, lng =>
    if 0 < lng then
      setByte bm (pos >>> 3) (fun c => c &&& (255 ^^^ byteShl 255 (8 - lng)))
    else bm

/-- Go `WriteFree(bm []byte, pos, lng int64)` for `pos, lng ≥ 0`. -/
def WriteFree (bm : List Nat) (pos lng : Nat) : List Nat :=
  let n := pos &&& 7
  if (lng + n) >>> 3 == 0 then
    setByte bm (pos >>> 3) (fun c => c &&& (255 ^^^ (byteShl 255 (8 - lng) >>> n)))
  else if n != 0 then
    writeFreeLoop (setByte bm (pos >>> 3) (fun c => c &&& (255 ^^^ (255 >>> n))))
      (pos + (8 - n)) (lng - (8 - n))
  else writeFreeLoop bm pos lng

/-- Go `AllocateBitmap(bm []byte, lng int64) (int64, bool)`; also returns the
mutated buffer.  `none` models the panic of `FindFreeSpot` on `lng < 0`. -/
def AllocateBitmap (bm : List Nat) (lng : Int) : Option (List Nat × Nat × Bool) :=
  if lng < 0 then none
  else
    let r := FindFreeSpot bm lng.toNat
    if r.2 then some (WriteInUse bm r.1 lng.toNat, r.1, true) else some (bm, r.1, false)

/-- The clipping logic of Go `FreeBitmap(bm []byte, pos, lng int64)`: the
arguments of the `WriteFree` call it makes, or `none` if it makes no call. -/
def FreeBitmapCallArgs (bm : List Nat) (pos lng : Int) : Option (Int × Int) :=
  let mx : Int := (bm.length : Int) * 8 - pos
  let lng2 := if mx < lng then mx else lng
  if 0 < lng2 then some (pos, lng2) else none

/-- Go `FreeBitmap(bm []byte, pos, lng int64)`; also returns the buffer. -/
def FreeBitmap (bm : List Nat) (pos lng : Int) : List Nat :=
  match FreeBitmapCallArgs bm pos lng with
  | some pl => WriteFree bm pl.1.toNat pl.2.toNat
  | none => bm

/-- The value of slot `s` in a bitmap: bit `7 - (s mod 8)` of byte `s / 8`
(MSB-first within each byte, as documented in the package header). -/
def getBit (bm : List Nat) (s : Nat) : Bool :=
  Nat.testBit (bm.getD (s / 8) 0) (7 - s % 8)

lemma and7_eq_mod (x : Nat) : x &&& 7 = x % 8 := by
  simpa using Nat.and_pow_two_sub_one_eq_mod x 3

lemma shr3_eq_div (x : Nat) : x >>> 3 = x / 8 := by
  simpa using Nat.shiftRight_eq_div_pow x 3

lemma byteShl_lt (x s : Nat) : byteShl x s < 256 := by
  exact Nat.mod_lt _ (by norm_num)

lemma getD_set (bm : List Nat) (i v j : Nat) :
    (bm.set i v).getD j 0 = if i = j ∧ i < bm.length then v else bm.getD j 0 := by
  by_cases h : i = j
  · subst h
    by_cases h2 : i < bm.length
    · simp [List.getD_eq_getElem?_getD, List.getElem?_set, h2]
    · have : bm.set i v = bm := List.set_eq_of_length_le (by omega)
      simp [this, h2]
  · simp [List.getD_eq_getElem?_getD, List.getElem?_set, h]

lemma getBit_set (bm : List Nat) (i v : Nat) (s : Nat) :
    getBit (bm.set i v) s =
      if s / 8 = i ∧ i < bm.length then Nat.testBit v (7 - s % 8) else getBit bm s := by
  unfold getBit
  rw [getD_set]
  by_cases h : s / 8 = i ∧ i < bm.length
  · rw [if_pos ⟨h.1.symm, h.2⟩, if_pos h]
  · rw [if_neg (fun hh => h ⟨hh.1.symm, hh.2⟩), if_neg h]

lemma testBit255 (t : Nat) (ht : t < 8) : Nat.testBit 255 t = true := by
  have h : ∀ t, t < 8 → Nat.testBit 255 t = true := by decide
  exact h t ht

lemma testBit_byteShl255 (l t : Nat) (hl : l ≤ 8) (ht : t < 8) :
    Nat.testBit (byteShl 255 (8 - l)) t = decide (8 - l ≤ t) := by
  have h : ∀ l, l < 9 → ∀ t, t < 8 →
      Nat.testBit (byteShl 255 (8 - l)) t = decide (8 - l ≤ t) := by decide
  exact h l (by omega) t ht

lemma testBit_shr255 (n t : Nat) (hn : n < 8) (ht : t < 8) :
    Nat.testBit (255 >>> n) t = decide (t < 8 - n) := by
  have h : ∀ n, n < 8 → ∀ t, t < 8 →
      Nat.testBit (255 >>> n) t = decide (t < 8 - n) := by decide
  exact h n hn t ht

lemma testBit_byteShl255_shr (l n t : Nat) (hl : l ≤ 8) (hn : n < 8) (ht : t < 8) :
    Nat.testBit (byteShl 255 (8 - l) >>> n) t = decide (8 - l ≤ t + n ∧ t + n < 8) := by
  have h : ∀ l, l < 9 → ∀ n, n < 8 → ∀ t, t < 8 →
      Nat.testBit (byteShl 255 (8 - l) >>> n) t =
        decide (8 - l ≤ t + n ∧ t + n < 8) := by decide
  exact h l (by omega) n hn t ht

lemma testBit_compl8 (m t : Nat) (ht : t < 8) :
    Nat.testBit (255 ^^^ m) t = !Nat.testBit m t := by
  rw [Nat.testBit_xor, testBit255 t ht]
  simp

lemma writeInUseLoop_length (bm : List Nat) (pos lng : Nat) :
    (writeInUseLoop bm pos lng).length = bm.length := by
  induction bm, pos, lng using writeInUseLoop.induct with
  | case1 bm pos lng ih =>
    rw [show writeInUseLoop bm pos (lng + 8)
          = writeInUseLoop (bm.set (pos >>> 3) 255) (pos + 8) lng from rfl]
    simpa using ih
  | case2 bm pos lng h hpos0 =>
    rw [writeInUseLoop.eq_2 _ _ _ h, if_pos hpos0]
    simp [setByte]
  | case3 bm pos lng h hpos0 =>
    rw [writeInUseLoop.eq_2 _ _ _ h, if_neg hpos0]

lemma writeFreeLoop_length (bm : List Nat) (pos lng : Nat) :
    (writeFreeLoop bm pos lng).length = bm.length := by
  induction bm, pos, lng using writeFreeLoop.induct with
  | case1 bm pos lng ih =>
    rw [show writeFreeLoop bm pos (lng + 8)
          = writeFreeLoop (bm.set (pos >>> 3) 0) (pos + 8) lng from rfl]
    simpa using ih
  | case2 bm pos lng h hpos0 =>
    rw [writeFreeLoop.eq_2 _ _ _ h, if_pos hpos0]
    simp [setByte]
  | case3 bm pos lng h hpos0 =>
    rw [writeFreeLoop.eq_2 _ _ _ h, if_neg hpos0]

lemma writeInUseLoop_getBit (bm : List Nat) (pos lng : Nat) :
    pos % 8 = 0 → pos + lng ≤ 8 * bm.length → ∀ s,
    getBit (writeInUseLoop bm pos lng) s
      = (getBit bm s || decide (pos ≤ s ∧ s < pos + lng)) := by
  induction bm, pos, lng using writeInUseLoop.induct with
  | case1 bm pos lng ih =>
    intro hpos hle s
    rw [show writeInUseLoop bm pos (lng + 8)
          = writeInUseLoop (bm.set (pos >>> 3) 255) (pos + 8) lng from rfl]
    have hlen : (bm.set (pos >>> 3) 255).length = bm.length := by simp
    rw [ih (by omega) (by rw [hlen]; omega) s]
    rw [getBit_set, shr3_eq_div]
    by_cases hc : s / 8 = pos / 8 ∧ pos / 8 < bm.length
    · rw [if_pos hc, testBit255 _ (by omega)]
      have hin : pos ≤ s ∧ s < pos + (lng + 8) := by
        obtain ⟨hc1, _⟩ := hc
        omega
      simp [hin]
    · rw [if_neg hc]
      have hplen : pos / 8 < bm.length := by omega
      have hiff : (pos + 8 ≤ s ∧ s < pos + 8 + lng) ↔ (pos ≤ s ∧ s < pos + (lng + 8)) := by
        constructor
        · intro hh; omega
        · intro hh
          rcases Nat.lt_or_ge s (pos + 8) with hlt | hge
          · exact absurd ⟨by omega, hplen⟩ hc
          · omega
      rw [decide_eq_decide.mpr hiff]
  | case2 bm pos lng h hpos0 =>
    intro hpos hle s
    have h8 : lng < 8 := by
      by_contra hh
      push_neg at hh
      exact h (lng - 8) (by omega)
    rw [writeInUseLoop.eq_2 _ _ _ h, if_pos hpos0]
    unfold setByte
    rw [getBit_set, shr3_eq_div]
    by_cases hc : s / 8 = pos / 8 ∧ pos / 8 < bm.length
    · rw [if_pos hc, Nat.testBit_lor]
      have hgb : Nat.testBit (bm.getD (pos / 8) 0) (7 - s % 8) = getBit bm s := by
        unfold getBit
        rw [hc.1]
      rw [hgb, testBit_byteShl255 lng (7 - s % 8) (by omega) (by omega)]
      congr 1
      exact decide_eq_decide.mpr (by obtain ⟨hc1, _⟩ := hc; omega)
    · rw [if_neg hc]
      have hplen : pos / 8 < bm.length := by omega
      have hno : ¬(pos ≤ s ∧ s < pos + lng) := by
        intro hh
        exact hc ⟨by omega, hplen⟩
      simp [hno]
  | case3 bm pos lng h hpos0 =>
    intro hpos hle s
    rw [writeInUseLoop.eq_2 _ _ _ h, if_neg hpos0]
    have hno : ¬(pos ≤ s ∧ s < pos + lng) := by omega
    simp [hno]

lemma writeFreeLoop_getBit (bm : List Nat) (pos lng : Nat) :
    pos % 8 = 0 → pos + lng ≤ 8 * bm.length → ∀ s,
    getBit (writeFreeLoop bm pos lng) s
      = (getBit bm s && !decide (pos ≤ s ∧ s < pos + lng)) := by
  induction bm, pos, lng using writeFreeLoop.induct with
  | case1 bm pos lng ih =>
    intro hpos hle s
    rw [show writeFreeLoop bm pos (lng + 8)
          = writeFreeLoop (bm.set (pos >>> 3) 0) (pos + 8) lng from rfl]
    have hlen : (bm.set (pos >>> 3) 0).length = bm.length := by simp
    rw [ih (by omega) (by rw [hlen]; omega) s]
    rw [getBit_set, shr3_eq_div]
    by_cases hc : s / 8 = pos / 8 ∧ pos / 8 < bm.length
    · rw [if_pos hc]
      have hin : pos ≤ s ∧ s < pos + (lng + 8) := by
        obtain ⟨hc1, _⟩ := hc
        omega
      simp [hin]
    · rw [if_neg hc]
      have hplen : pos / 8 < bm.length := by omega
      have hiff : (pos + 8 ≤ s ∧ s < pos + 8 + lng) ↔ (pos ≤ s ∧ s < pos + (lng + 8)) := by
        constructor
        · intro hh; omega
        · intro hh
          rcases Nat.lt_or_ge s (pos + 8) with hlt | hge
          · exact absurd ⟨by omega, hplen⟩ hc
          · omega
      rw [decide_eq_decide.mpr hiff]
  | case2 bm pos lng h hpos0 =>
    intro hpos hle s
    have h8 : lng < 8 := by
      by_contra hh
      push_neg at hh
      exact h (lng - 8) (by omega)
    rw [writeFreeLoop.eq_2 _ _ _ h, if_pos hpos0]
    unfold setByte
    rw [getBit_set, shr3_eq_div]
    by_cases hc : s / 8 = pos / 8 ∧ pos / 8 < bm.length
    · rw [if_pos hc, Nat.testBit_land, testBit_compl8 _ _ (by omega)]
      have hgb : Nat.testBit (bm.getD (pos / 8) 0) (7 - s % 8) = getBit bm s := by
        unfold getBit
        rw [hc.1]
      rw [hgb, testBit_byteShl255 lng (7 - s % 8) (by omega) (by omega)]
      congr 2
      exact decide_eq_decide.mpr (by obtain ⟨hc1, _⟩ := hc; omega)
    · rw [if_neg hc]
      have hplen : pos / 8 < bm.length := by omega
      have hno : ¬(pos ≤ s ∧ s < pos + lng) := by
        intro hh
        exact hc ⟨by omega, hplen⟩
      simp [hno]
  | case3 bm pos lng h hpos0 =>
    intro hpos hle s
    rw [writeFreeLoop.eq_2 _ _ _ h, if_neg hpos0]
    have hno : ¬(pos ≤ s ∧ s < pos + lng) := by omega
    simp [hno]

lemma WriteInUse_length (bm : List Nat) (pos lng : Nat) :
    (WriteInUse bm pos lng).length = bm.length := by
  simp only [WriteInUse]
  split_ifs with h1 h2
  · simp [setByte]
  · rw [writeInUseLoop_length]
    simp [setByte]
  · rw [writeInUseLoop_length]

lemma WriteFree_length (bm : List Nat) (pos lng : Nat) :
    (WriteFree bm pos lng).length = bm.length := by
  simp only [WriteFree]
  split_ifs with h1 h2
  · simp [setByte]
  · rw [writeFreeLoop_length]
    simp [setByte]
  · rw [writeFreeLoop_length]

lemma WriteInUse_getBit (bm : List Nat) (pos lng : Nat)
    (hle : pos + lng ≤ 8 * bm.length) (hlt : pos < 8 * bm.length) (s : Nat) :
    getBit (WriteInUse bm pos lng) s = (getBit bm s || decide (pos ≤ s ∧ s < pos + lng)) := by
  have hplen : pos / 8 < bm.length := by omega
  simp only [WriteInUse, and7_eq_mod, shr3_eq_div]
  split_ifs with h1 h2
  · -- single partial byte: lng + pos % 8 < 8
    have h1' : lng + pos % 8 < 8 := by
      simp only [beq_iff_eq] at h1
      omega
    unfold setByte
    rw [getBit_set]
    by_cases hc : s / 8 = pos / 8 ∧ pos / 8 < bm.length
    · rw [if_pos hc, Nat.testBit_lor]
      have hgb : Nat.testBit (bm.getD (pos / 8) 0) (7 - s % 8) = getBit bm s := by
        unfold getBit
        rw [hc.1]
      rw [hgb, testBit_byteShl255_shr lng (pos % 8) (7 - s % 8) (by omega) (by omega) (by omega)]
      congr 1
      exact decide_eq_decide.mpr (by obtain ⟨hc1, _⟩ := hc; omega)
    · rw [if_neg hc]
      have hne : s / 8 ≠ pos / 8 := fun hh => hc ⟨hh, hplen⟩
      have hno : ¬(pos ≤ s ∧ s < pos + lng) := by
        intro hh
        exact hne (by omega)
      simp [hno]
  · -- leading partial byte then aligned loop: pos % 8 ≠ 0
    have h1' : 8 ≤ lng + pos % 8 := by
      simp only [beq_iff_eq] at h1
      omega
    have h2' : pos % 8 ≠ 0 := by simpa using h2
    have hlen : (setByte bm (pos / 8) fun c => c ||| 255 >>> (pos % 8)).length = bm.length := by
      simp [setByte]
    rw [writeInUseLoop_getBit _ _ _ (by omega) (by rw [hlen]; omega) s]
    unfold setByte
    rw [getBit_set]
    by_cases hc : s / 8 = pos / 8 ∧ pos / 8 < bm.length
    · rw [if_pos hc, Nat.testBit_lor]
      have hgb : Nat.testBit (bm.getD (pos / 8) 0) (7 - s % 8) = getBit bm s := by
        unfold getBit
        rw [hc.1]
      rw [hgb, testBit_shr255 (pos % 8) (7 - s % 8) (by omega) (by omega)]
      rw [Bool.or_assoc, ← Bool.decide_or]
      congr 1
      exact decide_eq_decide.mpr (by obtain ⟨hc1, _⟩ := hc; omega)
    · rw [if_neg hc]
      have hne : s / 8 ≠ pos / 8 := fun hh => hc ⟨hh, hplen⟩
      congr 1
      exact decide_eq_decide.mpr (by omega)
  · -- pos already aligned: straight into the loop
    have h2' : pos % 8 = 0 := by simpa using h2
    rw [writeInUseLoop_getBit _ _ _ h2' hle s]

lemma WriteFree_getBit (bm : List Nat) (pos lng : Nat)
    (hle : pos + lng ≤ 8 * bm.length) (hlt : pos < 8 * bm.length) (s : Nat) :
    getBit (WriteFree bm pos lng) s = (getBit bm s && !decide (pos ≤ s ∧ s < pos + lng)) := by
  have hplen : pos / 8 < bm.length := by omega
  simp only [WriteFree, and7_eq_mod, shr3_eq_div]
  split_ifs with h1 h2
  · -- single partial byte: lng + pos % 8 < 8
    have h1' : lng + pos % 8 < 8 := by
      simp only [beq_iff_eq] at h1
      omega
    unfold setByte
    rw [getBit_set]
    by_cases hc : s / 8 = pos / 8 ∧ pos / 8 < bm.length
    · rw [if_pos hc, Nat.testBit_land, testBit_compl8 _ _ (by omega)]
      have hgb : Nat.testBit (bm.getD (pos / 8) 0) (7 - s % 8) = getBit bm s := by
        unfold getBit
        rw [hc.1]
      rw [hgb, testBit_byteShl255_shr lng (pos % 8) (7 - s % 8) (by omega) (by omega) (by omega)]
      congr 2
      exact decide_eq_decide.mpr (by obtain ⟨hc1, _⟩ := hc; omega)
    · rw [if_neg hc]
      have hne : s / 8 ≠ pos / 8 := fun hh => hc ⟨hh, hplen⟩
      have hno : ¬(pos ≤ s ∧ s < pos + lng) := by
        intro hh
        exact hne (by omega)
      simp [hno]
  · -- leading partial byte then aligned loop: pos % 8 ≠ 0
    have h1' : 8 ≤ lng + pos % 8 := by
      simp only [beq_iff_eq] at h1
      omega
    have h2' : pos % 8 ≠ 0 := by simpa using h2
    have hlen : (setByte bm (pos / 8) fun c => c &&& (255 ^^^ 255 >>> (pos % 8))).length
        = bm.length := by
      simp [setByte]
    rw [writeFreeLoop_getBit _ _ _ (by omega) (by rw [hlen]; omega) s]
    unfold setByte
    rw [getBit_set]
    by_cases hc : s / 8 = pos / 8 ∧ pos / 8 < bm.length
    · rw [if_pos hc, Nat.testBit_land, testBit_compl8 _ _ (by omega)]
      have hgb : Nat.testBit (bm.getD (pos / 8) 0) (7 - s % 8) = getBit bm s := by
        unfold getBit
        rw [hc.1]
      rw [hgb, testBit_shr255 (pos % 8) (7 - s % 8) (by omega) (by omega)]
      rw [Bool.and_assoc, ← Bool.not_or, ← Bool.decide_or]
      congr 2
      exact decide_eq_decide.mpr (by obtain ⟨hc1, _⟩ := hc; omega)
    · rw [if_neg hc]
      have hne : s / 8 ≠ pos / 8 := fun hh => hc ⟨hh, hplen⟩
      congr 2
      exact decide_eq_decide.mpr (by omega)
  · -- pos already aligned: straight into the loop
    have h2' : pos % 8 = 0 := by simpa using h2
    rw [writeFreeLoop_getBit _ _ _ h2' hle s]

lemma getD_lt_256 {bm : List Nat} (h : ∀ b ∈ bm, b < 256) (i : Nat) : bm.getD i 0 < 256 := by
  rcases Nat.lt_or_ge i bm.length with hi | hi
  · rw [List.getD_eq_getElem _ _ hi]
    exact h _ (List.getElem_mem hi)
  · rw [List.getD_eq_default _ _ hi]
    norm_num

lemma or_lt_256 {x y : Nat} (hx : x < 256) (hy : y < 256) : x ||| y < 256 := by
  have := Nat.or_lt_two_pow (n := 8) (by simpa using hx) (by simpa using hy)
  simpa using this

lemma and_lt_256 {x y : Nat} (hy : y < 256) : x &&& y < 256 :=
  Nat.lt_of_le_of_lt Nat.and_le_right hy

lemma xor255_lt_256 {m : Nat} (hm : m < 256) : 255 ^^^ m < 256 := by
  have := Nat.xor_lt_two_pow (n := 8) (x := 255) (y := m) (by norm_num) (by simpa using hm)
  simpa using this

lemma shr_le (x n : Nat) : x >>> n ≤ x := by
  rw [Nat.shiftRight_eq_div_pow]
  exact Nat.div_le_self _ _

lemma mem_set_lt {bm : List Nat} {i v : Nat} (h : ∀ b ∈ bm, b < 256) (hv : v < 256) :
    ∀ b ∈ bm.set i v, b < 256 := by
  intro b hb
  rcases List.mem_or_eq_of_mem_set hb with hb | rfl
  · exact h b hb
  · exact hv

lemma mem_writeInUseLoop_lt (bm : List Nat) (pos lng : Nat) (h : ∀ b ∈ bm, b < 256) :
    ∀ b ∈ writeInUseLoop bm pos lng, b < 256 := by
  induction bm, pos, lng using writeInUseLoop.induct with
  | case1 bm pos lng ih =>
    rw [show writeInUseLoop bm pos (lng + 8)
          = writeInUseLoop (bm.set (pos >>> 3) 255) (pos + 8) lng from rfl]
    exact fun b hb => ih (mem_set_lt h (by norm_num)) b hb
  | case2 bm pos lng hm hpos0 =>
    rw [writeInUseLoop.eq_2 _ _ _ hm, if_pos hpos0]
    exact mem_set_lt h (or_lt_256 (getD_lt_256 h _) (byteShl_lt _ _))
  | case3 bm pos lng hm hpos0 =>
    rw [writeInUseLoop.eq_2 _ _ _ hm, if_neg hpos0]
    exact h

lemma mem_writeFreeLoop_lt (bm : List Nat) (pos lng : Nat) (h : ∀ b ∈ bm, b < 256) :
    ∀ b ∈ writeFreeLoop bm pos lng, b < 256 := by
  induction bm, pos, lng using writeFreeLoop.induct with
  | case1 bm pos lng ih =>
    rw [show writeFreeLoop bm pos (lng + 8)
          = writeFreeLoop (bm.set (pos >>> 3) 0) (pos + 8) lng from rfl]
    exact fun b hb => ih (mem_set_lt h (by norm_num)) b hb
  | case2 bm pos lng hm hpos0 =>
    rw [writeFreeLoop.eq_2 _ _ _ hm, if_pos hpos0]
    exact mem_set_lt h (and_lt_256 (xor255_lt_256 (byteShl_lt _ _)))
  | case3 bm pos lng hm hpos0 =>
    rw [writeFreeLoop.eq_2 _ _ _ hm, if_neg hpos0]
    exact h

lemma mem_WriteInUse_lt (bm : List Nat) (pos lng : Nat) (h : ∀ b ∈ bm, b < 256) :
    ∀ b ∈ WriteInUse bm pos lng, b < 256 := by
  simp only [WriteInUse]
  split_ifs with h1 h2
  · exact mem_set_lt h (or_lt_256 (getD_lt_256 h _)
      (Nat.lt_of_le_of_lt (shr_le _ _) (byteShl_lt _ _)))
  · exact mem_writeInUseLoop_lt _ _ _
      (mem_set_lt h (or_lt_256 (getD_lt_256 h _)
        (Nat.lt_of_le_of_lt (shr_le _ _) (by norm_num))))
  · exact mem_writeInUseLoop_lt _ _ _ h

lemma mem_WriteFree_lt (bm : List Nat) (pos lng : Nat) (h : ∀ b ∈ bm, b < 256) :
    ∀ b ∈ WriteFree bm pos lng, b < 256 := by
  simp only [WriteFree]
  split_ifs with h1 h2
  · exact mem_set_lt h (and_lt_256 (xor255_lt_256
      (Nat.lt_of_le_of_lt (shr_le _ _) (byteShl_lt _ _))))
  · exact mem_writeFreeLoop_lt _ _ _
      (mem_set_lt h (and_lt_256 (xor255_lt_256
        (Nat.lt_of_le_of_lt (shr_le _ _) (by norm_num)))))
  · exact mem_writeFreeLoop_lt _ _ _ h

lemma eq_of_getBit_eq (bm1 bm2 : List Nat) (hlen : bm1.length = bm2.length)
    (h1 : ∀ b ∈ bm1, b < 256) (h2 : ∀ b ∈ bm2, b < 256)
    (h : ∀ s, getBit bm1 s = getBit bm2 s) : bm1 = bm2 := by
  apply List.ext_getElem hlen
  intro j hj1 hj2
  apply Nat.eq_of_testBit_eq
  intro t
  by_cases ht : t < 8
  · have hs := h (8 * j + (7 - t))
    unfold getBit at hs
    have e1 : (8 * j + (7 - t)) / 8 = j := by omega
    have e2 : 7 - (8 * j + (7 - t)) % 8 = t := by omega
    rw [e1, e2, List.getD_eq_getElem _ _ hj1, List.getD_eq_getElem _ _ hj2] at hs
    exact hs
  · have b1 : bm1[j] < 2 ^ 8 := by simpa using h1 _ (List.getElem_mem hj1)
    have b2 : bm2[j] < 2 ^ 8 := by simpa using h2 _ (List.getElem_mem hj2)
    have hle : (2:Nat) ^ 8 ≤ 2 ^ t := Nat.pow_le_pow_right (by norm_num) (by omega)
    rw [Nat.testBit_lt_two_pow (Nat.lt_of_lt_of_le b1 hle),
      Nat.testBit_lt_two_pow (Nat.lt_of_lt_of_le b2 hle)]

-- Scratch sanity checks of the translation (spec scenarios A, B, C, D).
example : FindFreeSpot (List.replicate 8 0) 3 = (0, true) := by decide
example : FindFreeSpot (248 :: List.replicate 7 0) 6 = (5, true) := by decide
example : FindFreeSpot (List.replicate 8 170) 2 = (7, true) := by decide
example : FindFreeSpot (WriteInUse (List.replicate 8 0) 0 10) 4 = (10, true) := by decide
example : WriteInUse (List.replicate 8 0) 0 10 = [255, 192, 0, 0, 0, 0, 0, 0] := by decide
example : FindFreeSpot (List.replicate 8 255) 64 = (0, false) := by decide
example : FindFreeSpot (List.replicate 8 0) 64 = (0, true) := by decide

end bitmap

namespace filealloc

/-- Reinterpret an integer as a 64-bit two's-complement value, the wrap Go
applies to every `int64` operation. -/
def i64 (z : Int) : Int := (z + 2 ^ 63) % 2 ^ 64 - 2 ^ 63

/-- Go `FormatConfig`.  The three size fields are `uint8`. -/
structure FormatConfig where
  BlockSizeLog : Fin 256
  BitmapBlocks : Fin 256
  PrefixBlocks : Fin 256
  DontUseMmap : Bool
  DontMsync : Bool
  DontFsync : Bool
deriving DecidableEq

/-- Go `NewFormatConfig(logBlockSize uint8)`. -/
def NewFormatConfig (logBlockSize : Fin 256) : FormatConfig :=
  { BlockSizeLog := logBlockSize, BitmapBlocks := 1, PrefixBlocks := 1,
    DontUseMmap := false, DontMsync := false, DontFsync := false }

/-- Go `RunSizeInBlocks`: `int64(f.BitmapBlocks) << (f.BlockSizeLog+3)`.
The shift count is computed in `uint8` (wrapping) arithmetic and the shifted
value is truncated to 64 bits. -/
def FormatConfig.RunSizeInBlocks (f : FormatConfig) : Int :=
  i64 ((f.BitmapBlocks.val : Int) * 2 ^ (f.BlockSizeLog + 3 : Fin 256).val)

/-- Go `ChunkSizeInBlocks`: `f.RunSizeInBlocks() + int64(f.BitmapBlocks)`. -/
def FormatConfig.ChunkSizeInBlocks (f : FormatConfig) : Int :=
  i64 (f.RunSizeInBlocks + (f.BitmapBlocks.val : Int))

/-- Go `BreakAddress(blk int64) (chunk, pos int64, ok bool)`.  `none` models
the division-by-zero panic (possible only when `ChunkSizeInBlocks` is 0). -/
def FormatConfig.BreakAddress (f : FormatConfig) (blk : Int) :
    Option (Int × Int × Bool) :=
  let blk1 := i64 (blk - (f.PrefixBlocks.val : Int))
  if blk1 < 0 then some (0, 0, false)
  else
    let chunksiz := f.ChunkSizeInBlocks
    if chunksiz = 0 then none
    else
      let chunk := blk1.tdiv chunksiz
      let pos := i64 (blk1.tmod chunksiz - (f.BitmapBlocks.val : Int))
      some (chunk, pos, decide (0 ≤ pos))

/-- Go `MakeAddress(chunk, pos int64) (blk int64)`. -/
def FormatConfig.MakeAddress (f : FormatConfig) (chunk pos : Int) : Int :=
  let blk : Int := (f.PrefixBlocks.val : Int)
  let chunksiz := f.ChunkSizeInBlocks
  let blk := i64 (blk + i64 (chunk * chunksiz))
  let blk := i64 (blk + (f.BitmapBlocks.val : Int))
  i64 (blk + pos)

/-- Go `bitmapBuffer`. -/
structure bitmapBuffer where
  buffer : List Nat
  rawoff : Int
  mmapped : Bool
deriving DecidableEq

/-- The mutable state of a Go `PageAllocator` whose `Storage` carries no
`MemMapper` (the default when the storage object does not implement the
mmap interface): the configuration, the cached `bitmapSize`, and the
per-chunk bitmap buffers.  Store contents are not part of the state because
after `Init` no operation reads them back. -/
structure PAState where
  cfg : FormatConfig
  bitmapSize : Nat
  allocators : List bitmapBuffer
deriving DecidableEq

/-- Go `ChunksN`. -/
def ChunksN (st : PAState) : Nat := st.allocators.length

/-- The observable I/O actions an operation performs on the store or on
mmap windows. -/
inductive Ev where
  | readAt : Ev
  | writeAt : Ev
  | sync : Ev
  | flushMap : Ev
deriving DecidableEq

/-- The error values of package `filealloc`. -/
inductive AllocErr where
  | EXTHAUSTED : AllocErr
  | EXCEEDMAX : AllocErr
  | outOfBounds : AllocErr
deriving DecidableEq

/-- Go slice indexing `l[i]` with an `int64` index: `none` models the
index-out-of-range panic. -/
def sliceGet (l : List bitmapBuffer) (i : Int) : Option bitmapBuffer :=
  if i < 0 then none else l.get? i.toNat

/-- The state `Init` builds for a fresh (empty) store: the initial probe
reads nothing, so one zero-filled bitmap is written at block `PrefixBlocks`
and a single non-mmapped buffer is cached.  `bitmapSize` is
`int(BitmapBlocks) << BlockSizeLog` (no overflow for the configurations
exercised here). -/
def freshInit (cfg : FormatConfig) : PAState :=
  let bitmapSize := cfg.BitmapBlocks.val <<< cfg.BlockSizeLog.val
  { cfg := cfg
    bitmapSize := bitmapSize
    allocators := [{ buffer := List.replicate bitmapSize 0
                     rawoff := i64 ((cfg.PrefixBlocks.val : Int) * 2 ^ cfg.BlockSizeLog.val)
                     mmapped := false }] }

/-- The store/mmap traffic of the flush block shared by `doAllocate` and
`doFree`: `WriteAt` + optional `Sync` for private buffers, optional
`FlushMap` for mmapped ones. -/
def flushEvents (cfg : FormatConfig) (b : bitmapBuffer) : List Ev :=
  if b.mmapped then (if cfg.DontMsync then [] else [Ev.flushMap])
  else Ev.writeAt :: (if cfg.DontFsync then [] else [Ev.sync])

/-- The `for i := range pa.allocators` loop of `doAllocate`; `i` is the
running chunk index.  Returns the updated buffer list and
`(blk, ok, err)` plus the emitted I/O events. -/
def doAllocateAux (cfg : FormatConfig) (lng : Int) :
    Int → List bitmapBuffer → Option (List bitmapBuffer × Int × Bool × Option AllocErr × List Ev)
  | _, [] => some ([], 0, false, some AllocErr.EXTHAUSTED, [])
  | i, b :: rest =>
    match bitmap.AllocateBitmap b.buffer lng with
    | none => none
    | some (buf, pos, ok) =>
      if ok then
        some ({ b with buffer := buf } :: rest, cfg.MakeAddress i (pos : Int), true, none,
          flushEvents cfg b)
      else
        match doAllocateAux cfg lng (i + 1) rest with
        | none => none
        | some (rest2, blk, ok2, err, evs) => some (b :: rest2, blk, ok2, err, evs)

/-- Go `doAllocate(lng int64)`. -/
def doAllocate (st : PAState) (lng : Int) :
    Option (PAState × Int × Bool × Option AllocErr × List Ev) :=
  match doAllocateAux st.cfg lng 0 st.allocators with
  | none => none
  | some (allocs, blk, ok, err, evs) =>
    some ({ st with allocators := allocs }, blk, ok, err, evs)

/-- Go `appendAllocator`: writes a fresh zero bitmap at the next chunk's
bitmap region and appends the (non-mmapped, since no `MemMapper` is
present) buffer. -/
def appendAllocator (st : PAState) : PAState × List Ev :=
  let off := st.cfg.MakeAddress (st.allocators.length : Int) (-(st.cfg.BitmapBlocks.val : Int))
  let b : bitmapBuffer :=
    { buffer := List.replicate st.bitmapSize 0
      rawoff := i64 (off * 2 ^ st.cfg.BlockSizeLog.val)
      mmapped := false }
  ({ st with allocators := st.allocators ++ [b] }, [Ev.writeAt])

/-- The unbounded `for { ... }` loop of `AllocateBlocks`, bounded by fuel;
`none` on fuel exhaustion (the Go loop iterates at most once more than the
number of appended chunks, so any sufficient fuel gives the Go result). -/
def allocateLoop : Nat → PAState → Int → Bool → List Ev →
    Option (PAState × Int × Bool × Option AllocErr × List Ev)
  | 0, _, _, _, _ => none
  | fuel + 1, st, lng, grow, acc =>
    match doAllocate st lng with
    | none => none
    | some (st2, blk, ok, err, evs) =>
      if ok || err ≠ some AllocErr.EXTHAUSTED || !grow then
        some (st2, blk, ok, err, acc ++ evs)
      else
        let ap := appendAllocator st2
        allocateLoop fuel ap.1 lng grow (acc ++ evs ++ ap.2)

/-- Go `AllocateBlocks(lng int64, grow bool) (blk int64, ok bool, err error)`,
with an explicit fuel bound on the growth loop. -/
def AllocateBlocks (fuel : Nat) (st : PAState) (lng : Int) (grow : Bool) :
    Option (PAState × Int × Bool × Option AllocErr × List Ev) :=
  if st.cfg.RunSizeInBlocks < lng then some (st, 0, false, some AllocErr.EXCEEDMAX, [])
  else allocateLoop fuel st lng grow []

/-- Go `doFree(blk, lng int64)`. -/
def doFree (st : PAState) (blk lng : Int) :
    Option (PAState × Option AllocErr × List Ev) :=
  match st.cfg.BreakAddress blk with
  | none => none
  | some (i, pos, ok) =>
    if !ok then some (st, none, [])
    else if i < (st.allocators.length : Int) then
      match sliceGet st.allocators i with
      | none => none
      | some b =>
        let b2 := { b with buffer := bitmap.FreeBitmap b.buffer pos lng }
        some ({ st with allocators := st.allocators.set i.toNat b2 }, none,
          flushEvents st.cfg b)
    else some (st, none, [])

/-- Go `FreeBlocks(blk, lng int64)`. -/
def FreeBlocks (st : PAState) (blk lng : Int) :
    Option (PAState × Option AllocErr × List Ev) :=
  doFree st blk lng

/-- Go `MemSyncIfMmapped(chunk int64) (err error, mmapped bool)`.  `none`
models the index-out-of-range panic on a negative `chunk` (the bounds check
only rejects `chunk ≥ len(pa.allocators)`). -/
def MemSyncIfMmapped (st : PAState) (chunk : Int) :
    Option (Option AllocErr × Bool × List Ev) :=
  if (st.allocators.length : Int) ≤ chunk then some (some AllocErr.outOfBounds, false, [])
  else
    match sliceGet st.allocators chunk with
    | none => none
    | some b =>
      if !b.mmapped then some (none, false, [])
      else some (none, true, [Ev.flushMap])

/-- The default configuration of the spec's concrete scenarios:
`BlockSizeLog = 3`, `BitmapBlocks = 1`, `PrefixBlocks = 1`, so `R = 64`
and `C = 65`. -/
def cfg3 : FormatConfig := NewFormatConfig 3

lemma i64_eq_self (z : Int) (h1 : -(2 ^ 63) ≤ z) (h2 : z < 2 ^ 63) : i64 z = z := by
  unfold i64
  have hp : (0:Int) < 2 ^ 63 := by positivity
  have h64 : (2:Int) ^ 64 = 2 ^ 63 * 2 := by ring
  rw [Int.emod_eq_of_lt (by linarith) (by linarith)]
  ring

-- Scratch sanity checks of the allocator translation.
example : cfg3.RunSizeInBlocks = 64 := by decide
example : cfg3.ChunkSizeInBlocks = 65 := by decide
example : cfg3.MakeAddress 0 0 = 2 := by decide
example : cfg3.MakeAddress 1 0 = 67 := by decide
example : cfg3.BreakAddress 9 = some (0, 7, true) := by decide
example : cfg3.BreakAddress 0 = some (0, 0, false) := by decide
example : cfg3.BreakAddress 1 = some (0, -1, false) := by decide

/-- Scenario E of the spec, run on a fresh store with `cfg3`: two
allocations of 64 blocks with `grow = true`.  Returns
`(blk1, ok1, err1, blk2, ok2, err2, final chunk count)`. -/
def c4Run : Option (Int × Bool × Option AllocErr × Int × Bool × Option AllocErr × Nat) := do
  let s0 := freshInit cfg3
  let (s1, blk1, ok1, err1, _) ← AllocateBlocks 2 s0 64 true
  let (s2, blk2, ok2, err2, _) ← AllocateBlocks 3 s1 64 true
  pure (blk1, ok1, err1, blk2, ok2, err2, ChunksN s2)

/-- An operation sequence on one `PageAllocator` instance (fresh store,
`cfg3`): allocate 8 blocks, allocate 1 block (call B), free one block out
of the *first* allocation's range, then allocate 2 blocks (call C).
Returns `(blkB, okB, blkC, okC)`.  B's range is never freed. -/
def c2Run : Option (Int × Bool × Int × Bool) := do
  let s0 := freshInit cfg3
  let (s1, _, _, _, _) ← AllocateBlocks 2 s0 8 true
  let (s2, blkB, okB, _, _) ← AllocateBlocks 2 s1 1 true
  let (s3, _, _) ← FreeBlocks s2 9 1
  let (_, blkC, okC, _, _) ← AllocateBlocks 2 s3 2 true
  pure (blkB, okB, blkC, okC)

example : c4Run = some (2, true, none, 67, true, none, 2) := rfl
example : c2Run = some (10, true, 9, true) := rfl

end filealloc


/-!
The claims.
-/

/-- C1: the claim states that a successful `FindFreeSpot(bm, lng) = (p, true)`
always names a free in-range run that is leftmost, and that on the fragmented
buffer of eight `0xAA` bytes with `lng = 2` it returns `found = false`.  The
code violates this: its two-byte spill-over check shifts the mask `B` by
`8 - i` instead of `i`, so the mask truncates to zero and the check passes
vacuously.  On `[0xAA]*8` with `lng = 2` the code returns `(7, true)` even
though slot 8 (the first bit of the second byte) is occupied. -/
theorem C1_find_unsound_eval :
    bitmap.FindFreeSpot (List.replicate 8 170) 2 = (7, true)
      ∧ bitmap.getBit (List.replicate 8 170) 8 = true := by
  exact ⟨by decide, by decide⟩

/-- C2: the claim states that two successful allocations whose frees have not
intervened return disjoint block ranges.  Because of the `findFreeSpot8`
spill-over bug (see C1) this fails: on a fresh store with the default
geometry, allocating 8 blocks, then 1 block (returning block 10), freeing
block 9 (part of the first allocation only), and then allocating 2 blocks
returns block 9 with length 2 — the ranges `[10, 11)` and `[9, 11)` of two
live allocations overlap. -/
theorem C2_aliasing_eval :
    filealloc.c2Run = some (10, true, 9, true)
      ∧ ¬ ((10:Int) + 1 ≤ 9 ∨ (9:Int) + 2 ≤ 10) :=
  ⟨rfl, by norm_num⟩

/-- C3 counterexample: `WriteInUse` then `WriteFree` does NOT restore a
buffer whose range contained 1-bits: on `bm = [0xFF]`, `p = 0`, `l = 1` the
round trip yields `[0x7F]`. -/
theorem C3_counterexample :
    ¬ (bitmap.WriteFree (bitmap.WriteInUse [255] 0 1) 0 1 = [255]) := by decide

/-- C3 (amended): the round trip `WriteInUse` then `WriteFree` restores the
buffer exactly provided the bits of `[p, p+l)` are zero in the original
buffer (the counterexample shows initially-set bits are cleared, not
restored); `p < 8·|bm|` additionally excludes the `p = 8·|bm|, l = 0` edge
at which the Go primitives index out of range. -/
theorem C3_round_trip (bm : List Nat) (p l : Nat)
    (hwf : ∀ b ∈ bm, b < 256)
    (hle : p + l ≤ 8 * bm.length) (hlt : p < 8 * bm.length)
    (hz : ∀ s, p ≤ s → s < p + l → bitmap.getBit bm s = false) :
    bitmap.WriteFree (bitmap.WriteInUse bm p l) p l = bm := by
  have hlen : (bitmap.WriteInUse bm p l).length = bm.length :=
    bitmap.WriteInUse_length bm p l
  apply bitmap.eq_of_getBit_eq
  · rw [bitmap.WriteFree_length, hlen]
  · exact bitmap.mem_WriteFree_lt _ _ _ (bitmap.mem_WriteInUse_lt _ _ _ hwf)
  · exact hwf
  · intro s
    rw [bitmap.WriteFree_getBit _ _ _ (by rw [hlen]; exact hle) (by rw [hlen]; exact hlt) s]
    rw [bitmap.WriteInUse_getBit bm p l hle hlt s]
    by_cases hin : p ≤ s ∧ s < p + l
    · simp [hin, hz s hin.1 hin.2]
    · simp [hin]

/-- C3 witness: concrete round trip on `bm = [0x0F]`, `p = 0`, `l = 4`
(the four marked bits start out clear). -/
theorem C3_witness : bitmap.WriteFree (bitmap.WriteInUse [15] 0 4) 0 4 = [15] := by
  exact C3_round_trip [15] 0 4 (by decide) (by decide) (by decide)
    (by intro s hs1 hs2; interval_cases s <;> decide)

/-- C4: on a freshly initialized empty store with `BlockSizeLog = 3`,
`BitmapBlocks = 1`, `PrefixBlocks = 1` (`R = 64`, `C = 65`), the first
`AllocateBlocks(64, true)` returns block 2 with `ok = true` and no error,
and a second `AllocateBlocks(64, true)` appends a chunk (`ChunksN` becomes
2) and returns block 67 with `ok = true` and no error. -/
theorem C4_growth_rescan :
    filealloc.c4Run = some (2, true, none, 67, true, none, 2) := rfl

/-- C5: for every allocator state, fuel, grow flag, and `lng` exceeding
`RunSizeInBlocks`, `AllocateBlocks` returns `ok = false` with `EXCEEDMAX`
immediately: the state (hence every bitmap buffer) is unchanged and the
I/O event trace is empty (no read, write, sync, or mmap flush). -/
theorem C5_exceed_max (fuel : Nat) (st : filealloc.PAState) (lng : Int) (grow : Bool)
    (h : st.cfg.RunSizeInBlocks < lng) :
    filealloc.AllocateBlocks fuel st lng grow
      = some (st, 0, false, some filealloc.AllocErr.EXCEEDMAX, []) := by
  unfold filealloc.AllocateBlocks
  rw [if_pos h]

/-- C5 witness: `AllocateBlocks(65, true)` on a fresh default store
(`R = 64`). -/
theorem C5_witness :
    filealloc.AllocateBlocks 0 (filealloc.freshInit filealloc.cfg3) 65 true
      = some (filealloc.freshInit filealloc.cfg3, 0, false,
          some filealloc.AllocErr.EXCEEDMAX, []) :=
  C5_exceed_max 0 (filealloc.freshInit filealloc.cfg3) 65 true (by decide)

/-- C6: whenever `BreakAddress` returns `ok = true` (so `pos ≥ 0`) and
`FreeBitmap`'s clipping logic decides to call `WriteFree`, the call's
arguments satisfy `pos ≥ 0`, `lng > 0` and `pos + lng ≤ 8·|bm|`, so the
call cannot violate `WriteFree`'s documented precondition (no panic), for
every requested `lng`, including `lng ≤ 0` and `lng > R - pos`. -/
theorem C6_free_clip_safe (st : filealloc.PAState) (blk lng i pos : Int)
    (b : filealloc.bitmapBuffer)
    (hB : st.cfg.BreakAddress blk = some (i, pos, true))
    (_hget : filealloc.sliceGet st.allocators i = some b)
    (p l : Int)
    (hcall : bitmap.FreeBitmapCallArgs b.buffer pos lng = some (p, l)) :
    0 ≤ p ∧ 0 < l ∧ p + l ≤ 8 * (b.buffer.length : Int) := by
  have hpos : 0 ≤ pos := by
    simp only [filealloc.FormatConfig.BreakAddress] at hB
    split_ifs at hB with h1 h2
    · simp at hB
    · simp only [Option.some.injEq, Prod.mk.injEq] at hB
      obtain ⟨_, h_pos, h_ok⟩ := hB
      rw [← h_pos]
      exact of_decide_eq_true h_ok
  simp only [bitmap.FreeBitmapCallArgs] at hcall
  by_cases hmx : ((b.buffer.length : Int) * 8 - pos) < lng
  · rw [if_pos hmx] at hcall
    by_cases hl : (0:Int) < (b.buffer.length : Int) * 8 - pos
    · rw [if_pos hl] at hcall
      simp only [Option.some.injEq, Prod.mk.injEq] at hcall
      obtain ⟨hp', hl'⟩ := hcall
      subst hp'
      subst hl'
      exact ⟨by omega, by omega, by omega⟩
    · rw [if_neg hl] at hcall
      exact absurd hcall (by simp)
  · rw [if_neg hmx] at hcall
    by_cases hl : (0:Int) < lng
    · rw [if_pos hl] at hcall
      simp only [Option.some.injEq, Prod.mk.injEq] at hcall
      obtain ⟨hp', hl'⟩ := hcall
      subst hp'
      subst hl'
      exact ⟨by omega, by omega, by omega⟩
    · rw [if_neg hl] at hcall
      exact absurd hcall (by simp)

/-- C6 witness: on the fresh default store, freeing at block 9 (chunk 0,
`pos = 7`) with the oversized `lng = 100` clips to 57 and stays in
bounds. -/
theorem C6_witness :
    0 ≤ (7:Int) ∧ 0 < (57:Int)
      ∧ (7:Int) + 57 ≤ 8 * (((List.replicate 8 0 : List Nat)).length : Int) := by
  exact C6_free_clip_safe (filealloc.freshInit filealloc.cfg3) 9 100 0 7
    { buffer := List.replicate 8 0, rawoff := 8, mmapped := false }
    (by decide) (by decide) 7 57 (by decide)

/-- C7: for `p + l ≤ 8·|bm|` and `p < 8·|bm|`, `WriteInUse bm p l` sets to
1 exactly the bits of slots `[p, p+l)` and leaves every other bit
unchanged, and `WriteFree bm p l` clears exactly those bits and leaves
every other bit unchanged. -/
theorem C7_mark_clear_locality (bm : List Nat) (p l : Nat)
    (hle : p + l ≤ 8 * bm.length) (hlt : p < 8 * bm.length) :
    (∀ s, bitmap.getBit (bitmap.WriteInUse bm p l) s
        = (bitmap.getBit bm s || decide (p ≤ s ∧ s < p + l)))
    ∧ (∀ s, bitmap.getBit (bitmap.WriteFree bm p l) s
        = (bitmap.getBit bm s && !decide (p ≤ s ∧ s < p + l))) :=
  ⟨fun s => bitmap.WriteInUse_getBit bm p l hle hlt s,
   fun s => bitmap.WriteFree_getBit bm p l hle hlt s⟩

/-- C7 witness: marking slots `[2, 5)` of a one-byte zero buffer sets
slot 3. -/
theorem C7_witness : bitmap.getBit (bitmap.WriteInUse [0] 2 3) 3 = true := by
  rw [(C7_mark_clear_locality [0] 2 3 (by decide) (by decide)).1 3]
  decide

/-- C8: for every configuration whose run size computes without overflow to
`M·2^B·8 > 0` and all `c ≥ 0`, `0 ≤ p < R` for which the address arithmetic
stays below `2^63`, `BreakAddress (MakeAddress c p)` returns exactly
`(c, p, true)`. -/
theorem C8_split_join (f : filealloc.FormatConfig) (c p : Int)
    (hc : 0 ≤ c) (hp : 0 ≤ p)
    (hRpos : 0 < f.RunSizeInBlocks)
    (hpR : p < f.RunSizeInBlocks)
    (hC : f.RunSizeInBlocks + (f.BitmapBlocks.val : Int) < 2 ^ 63)
    (hOv : (f.PrefixBlocks.val : Int)
        + c * (f.RunSizeInBlocks + (f.BitmapBlocks.val : Int))
        + (f.BitmapBlocks.val : Int) + p < 2 ^ 63) :
    f.BreakAddress (f.MakeAddress c p) = some (c, p, true) := by
  have hM0 : (0:Int) ≤ (f.BitmapBlocks.val : Int) := Int.ofNat_nonneg _
  have hP0 : (0:Int) ≤ (f.PrefixBlocks.val : Int) := Int.ofNat_nonneg _
  have h263 : (0:Int) < 2 ^ 63 := by positivity
  set M : Int := (f.BitmapBlocks.val : Int) with hMdef
  set P : Int := (f.PrefixBlocks.val : Int) with hPdef
  set R : Int := f.RunSizeInBlocks with hRdef
  have hCval : f.ChunkSizeInBlocks = R + M := by
    unfold filealloc.FormatConfig.ChunkSizeInBlocks
    exact filealloc.i64_eq_self _ (by linarith) (by linarith)
  have hCpos : (0:Int) < R + M := by linarith
  have hCne : R + M ≠ 0 := ne_of_gt hCpos
  have hmul0 : 0 ≤ c * (R + M) := mul_nonneg hc (le_of_lt hCpos)
  have hmulUB : c * (R + M) < 2 ^ 63 := by linarith
  have h1 : filealloc.i64 (c * f.ChunkSizeInBlocks) = c * (R + M) := by
    rw [hCval]
    exact filealloc.i64_eq_self _ (by linarith) hmulUB
  have hMA : f.MakeAddress c p = P + c * (R + M) + M + p := by
    simp only [filealloc.FormatConfig.MakeAddress]
    rw [h1, ← hPdef, ← hMdef]
    rw [filealloc.i64_eq_self (P + c * (R + M)) (by linarith) (by linarith)]
    rw [filealloc.i64_eq_self (P + c * (R + M) + M) (by linarith) (by linarith)]
    exact filealloc.i64_eq_self _ (by linarith) (by linarith)
  rw [show f.BreakAddress (f.MakeAddress c p)
        = f.BreakAddress (P + c * (R + M) + M + p) from by rw [hMA]]
  simp only [filealloc.FormatConfig.BreakAddress]
  rw [← hPdef, ← hMdef]
  rw [show P + c * (R + M) + M + p - P = c * (R + M) + (M + p) from by ring]
  rw [filealloc.i64_eq_self (c * (R + M) + (M + p)) (by linarith) (by linarith)]
  have hnneg : ¬ (c * (R + M) + (M + p) < 0) := not_lt.mpr (by linarith)
  rw [if_neg hnneg, hCval]
  rw [if_neg hCne]
  have htd : (c * (R + M) + (M + p)).tdiv (R + M) = c := by
    rw [Int.tdiv_eq_ediv (by linarith) (by linarith)]
    rw [show c * (R + M) + (M + p) = M + p + (R + M) * c from by ring]
    rw [Int.add_mul_ediv_left _ _ hCne]
    rw [Int.ediv_eq_zero_of_lt (by linarith) (by linarith)]
    ring
  have htm : (c * (R + M) + (M + p)).tmod (R + M) = M + p := by
    rw [Int.tmod_eq_emod (by linarith) (by linarith)]
    rw [show c * (R + M) + (M + p) = M + p + (R + M) * c from by ring]
    rw [Int.add_mul_emod_self_left]
    exact Int.emod_eq_of_lt (by linarith) (by linarith)
  rw [htd, htm]
  rw [show M + p - M = p from by ring]
  rw [filealloc.i64_eq_self p (by linarith) (by linarith)]
  simp [hp]

/-- C8 witness: with the default geometry, `Split (Join 5 63) = (5, 63,
true)`. -/
theorem C8_witness :
    filealloc.cfg3.BreakAddress (filealloc.cfg3.MakeAddress 5 63)
      = some (5, 63, true) := by
  exact C8_split_join filealloc.cfg3 5 63 (by decide) (by decide) (by decide)
    (by decide) (by decide) (by decide)

/-- C9: `FreeBlocks` on any block whose `BreakAddress` fails (`ok = false`,
the block is in the prefix or a bitmap region) or whose chunk index is not
below `ChunksN` returns `nil`, leaves the whole state (all bitmap buffers)
unchanged, and performs no store or mmap I/O. -/
theorem C9_free_unknown_silent (st : filealloc.PAState) (blk lng i pos : Int)
    (h : st.cfg.BreakAddress blk = some (i, pos, false)
       ∨ (st.cfg.BreakAddress blk = some (i, pos, true)
            ∧ (st.allocators.length : Int) ≤ i)) :
    filealloc.FreeBlocks st blk lng = some (st, none, []) := by
  unfold filealloc.FreeBlocks filealloc.doFree
  rcases h with h | ⟨h, hN⟩
  · rw [h]
    rfl
  · rw [h]
    have hni : ¬ (i < (st.allocators.length : Int)) := not_lt.mpr hN
    simp [hni]

/-- C9 witness: freeing block 0 (inside the prefix) of a fresh default
store is a silent no-op. -/
theorem C9_witness :
    filealloc.FreeBlocks (filealloc.freshInit filealloc.cfg3) 0 5
      = some (filealloc.freshInit filealloc.cfg3, none, []) :=
  C9_free_unknown_silent (filealloc.freshInit filealloc.cfg3) 0 5 0 0
    (Or.inl (by decide))

/-- C10: `MemSyncIfMmapped` with a negative chunk index neither reports
`OUT_OF_BOUNDS` nor returns normally: the bounds check only rejects
`chunk ≥ ChunksN`, so the subsequent (negative) slice index panics —
modelled as `none`. -/
theorem C10_memsync_negative_panics (st : filealloc.PAState) (c : Int) (hc : c < 0) :
    filealloc.MemSyncIfMmapped st c = none := by
  unfold filealloc.MemSyncIfMmapped
  have h1 : ¬ ((st.allocators.length : Int) ≤ c) := by
    have h0 : (0:Int) ≤ (st.allocators.length : Int) := Int.ofNat_nonneg _
    omega
  rw [if_neg h1]
  unfold filealloc.sliceGet
  rw [if_pos hc]

/-- C10 witness: chunk index `-1` on a fresh default store panics. -/
theorem C10_witness :
    filealloc.MemSyncIfMmapped (filealloc.freshInit filealloc.cfg3) (-1) = none :=
  C10_memsync_negative_panics (filealloc.freshInit filealloc.cfg3) (-1) (by decide)
